import Mathlib

/-! RefinedNote: the notes store and the save action of the editor.

A shallow embedding of the main process of the application (`src/main.js`: the
global `notesData`, `loadNotesData` and the four request handlers `get-notes`,
`save-note`, `delete-note`, `search-notes`) and of the save action of the window
(`src/renderer.js`: `createNewNote`, `saveCurrentNote`).

Conventions of the embedding.

* A note is a record of five fields. The `id` is an `Option String`: `none` is the
  JavaScript `null` of an unsaved draft.
* The clock is not part of the state. Every function that reads the clock takes the
  values it reads as an argument, one field for each read, in the order of the reads.
* A request handler is a function from the value of the global `notesData` before the
  request to a pair: the value of `notesData` after the request, and the reply.
* Writing the collection to the backing file (`saveNotesData`) changes neither
  `notesData` nor the reply, and is left out.
-/

namespace RefinedNote

/-! ## Data model -/

/-- A note, as it is kept in `notesData`, sent by the window and stored in the file. -/
structure Note where
  id : Option String
  title : String
  content : String
  createdAt : String
  updatedAt : String
deriving DecidableEq

/-- JavaScript truthiness of a value that is `null` or a string, as tested by
`if (note.id)` and `if (!query)`: `null` and the empty string are falsy. -/
def truthy : Option String → Bool
  | none => false
  | some s => s != ""

/-- The clock values read by the `save-note` handler: `Date.now()` (milliseconds since
the epoch) and the results of the calls `new Date().toISOString()`. -/
structure SaveClock where
  now : Nat
  isoCreated : String
  isoUpdated : String

/-- The clock values read by `createNewNote`: two calls of `new Date().toISOString()`. -/
structure DraftClock where
  isoCreated : String
  isoUpdated : String

/-! ## Built-in functions of the language used by the code -/

/-- `Array.prototype.findIndex`: the position of the first element that satisfies `p`;
`none` stands for the result `-1`. -/
def findIndex (p : Note → Bool) : List Note → Option Nat
  | [] => none
  | x :: xs => if p x then some 0 else (findIndex p xs).map (· + 1)

/-- `String.prototype.includes` on the characters of the two strings:
`includesChars hay needle` holds when `needle` occurs in `hay` as a contiguous block. -/
def includesChars (hay needle : List Char) : Bool :=
  match hay with
  | [] => needle.isPrefixOf []
  | c :: cs => needle.isPrefixOf (c :: cs) || includesChars cs needle

/-- `s.includes(searchString)`. -/
def includes (s searchString : String) : Bool :=
  includesChars s.data searchString.data

/-- The code points that `String.prototype.trim` removes: the white space and line
terminator characters of the language. -/
def isWhiteSpace (c : Char) : Bool :=
  c.toNat ∈ [0x09, 0x0A, 0x0B, 0x0C, 0x0D, 0x20, 0xA0, 0x1680, 0x2000, 0x2001, 0x2002,
    0x2003, 0x2004, 0x2005, 0x2006, 0x2007, 0x2008, 0x2009, 0x200A, 0x2028, 0x2029,
    0x202F, 0x205F, 0x3000, 0xFEFF]

/-- `String.prototype.trim`: white space removed from both ends. -/
def trim (s : String) : String :=
  ⟨((s.data.dropWhile isWhiteSpace).reverse.dropWhile isWhiteSpace).reverse⟩

/-! ## The main process: request handlers (`src/main.js`) -/

/-- Handler of `get-notes`: replies with the global `notesData`, whatever its value is.
It is the `list()` operation of the store. -/
def getNotes {α : Type} (notesData : α) : α × α :=
  (notesData, notesData)

/-- The assignment part of the `save-note` handler: the value of `notesData` after it. -/
def saveNoteData (clk : SaveClock) (notesData : List Note) (note : Note) : List Note :=
  if truthy note.id then
    -- Update existing note
    match findIndex (fun n => n.id == note.id) notesData with
    | some index => notesData.set index { note with updatedAt := clk.isoUpdated }
    | none => notesData
  else
    -- Create new note
    let newNote : Note :=
      { note with
        id := some (toString clk.now)
        createdAt := clk.isoCreated
        updatedAt := clk.isoUpdated }
    newNote :: notesData

/-- Handler of `save-note`: updates `notesData` and replies with it. -/
def saveNote (clk : SaveClock) (notesData : List Note) (note : Note) :
    List Note × List Note :=
  let notesData := saveNoteData clk notesData note
  (notesData, notesData)

/-- Handler of `delete-note`: keeps the notes whose id differs from `noteId` and
replies with the new `notesData`. -/
def deleteNote (notesData : List Note) (noteId : Option String) :
    List Note × List Note :=
  let notesData := notesData.filter (fun note => note.id != noteId)
  (notesData, notesData)

/-- Handler of `search-notes`. The lower-casing function `String.prototype.toLowerCase`
is the parameter `toLowerCase`. The handler does not assign `notesData`. -/
def searchNotes (toLowerCase : String → String) (notesData : List Note)
    (query : Option String) : List Note × List Note :=
  if !truthy query then (notesData, notesData)
  else
    let searchTerm := toLowerCase (query.getD "")
    (notesData, notesData.filter (fun note =>
      includes (toLowerCase note.title) searchTerm ||
      includes (toLowerCase note.content) searchTerm))

/-! ## Loading the backing file (`src/main.js`, `loadNotesData`) -/

/-- A JSON value, as returned by `JSON.parse`. Numbers are restricted to integers. -/
inductive JsonValue where
  | null
  | bool (b : Bool)
  | num (n : Int)
  | str (s : String)
  | arr (items : List JsonValue)
  | obj (fields : List (String × JsonValue))

/-- The function `loadNotesData`: the value of the global `notesData` after it.
`file` is the outcome of `fs.readFile(notesPath, 'utf8')`, `none` when the read is
rejected (the file is missing or unreadable). `parse` is `JSON.parse`, `none` when it
throws. The `catch` block assigns the empty array. The message `notes-loaded` sent to
the window afterwards carries the same value and is left out. -/
def loadNotesData (parse : String → Option JsonValue) (file : Option String) :
    JsonValue :=
  match file with
  | none => JsonValue.arr []
  | some data =>
    match parse data with
    | some value => value
    | none => JsonValue.arr []

/-- The behaviour of `JSON.parse` on five short texts: an empty object, a number, a
string, an empty array and `null`. Every other text is mapped to `none`; it is used
only at the five texts, to evaluate `loadNotesData` on concrete files. -/
def parseSample (data : String) : Option JsonValue :=
  if data = "\x7b\x7d" then some (JsonValue.obj [])
  else if data = "7" then some (JsonValue.num 7)
  else if data = "\"x\"" then some (JsonValue.str "x")
  else if data = "[]" then some (JsonValue.arr [])
  else if data = "null" then some JsonValue.null
  else none

/-! ## The window: the save action (`src/renderer.js`) -/

/-- The state of the window that the save action reads or writes: the globals `notes`
and `currentNote`, the values of the two input elements, the `disabled` flag of the
delete button and the text of the status bar. -/
structure Renderer where
  notes : List Note
  currentNote : Option Note
  noteTitle : String
  noteContent : String
  deleteNoteBtnDisabled : Bool
  statusText : String
deriving DecidableEq

/-- The function `createNewNote`: a fresh draft replaces the current note and the
editor is cleared. Moving the focus, the word count and the redrawing of the list are
left out. -/
def createNewNote (clk : DraftClock) (r : Renderer) : Renderer :=
  { r with
    currentNote := some
      { id := none, title := "", content := "",
        createdAt := clk.isoCreated, updatedAt := clk.isoUpdated }
    noteTitle := ""
    noteContent := ""
    deleteNoteBtnDisabled := true
    statusText := "New note created" }

/-- The result of one run of `saveCurrentNote`: the state of the window, the value of
`notesData` in the main process, and the notes passed to `electronAPI.saveNote` during
the run, in order. -/
structure SaveOutcome where
  renderer : Renderer
  notesData : List Note
  saveCalls : List Note
deriving DecidableEq

/-- The function `saveCurrentNote`, run against a main process whose collection is
`notesData`. The call `electronAPI.saveNote(currentNote)` is the `save-note` handler
applied to the current note. The locals `hadId` and `savedNote` are computed and never
read, `renderNotesList` writes the page only, and the status text set by `createNewNote`
is overwritten by the last `updateStatus`. -/
def saveCurrentNote (sclk : SaveClock) (dclk : DraftClock) (r : Renderer)
    (notesData : List Note) : SaveOutcome :=
  match r.currentNote with
  | none => { renderer := createNewNote dclk r, notesData := notesData, saveCalls := [] }
  | some currentNote =>
    if (trim currentNote.title).isEmpty && (trim currentNote.content).isEmpty then
      { renderer := { r with statusText := "Cannot save empty note" }
        notesData := notesData
        saveCalls := [] }
    else
      let currentNote : Note :=
        { currentNote with
          title := if r.noteTitle = "" then "Untitled Note" else r.noteTitle
          content := r.noteContent }
      let reply := saveNote sclk notesData currentNote
      let r1 : Renderer := { r with currentNote := some currentNote, notes := reply.2 }
      { renderer := { createNewNote dclk r1 with statusText := "Note saved" }
        notesData := reply.1
        saveCalls := [currentNote] }

/-! ## Runs of the store -/

/-- A mutating request to the store. -/
inductive Op where
  | save (clk : SaveClock) (note : Note)
  | delete (noteId : Option String)

/-- The value of `notesData` after one request. -/
def step (notesData : List Note) : Op → List Note
  | Op.save clk note => (saveNote clk notesData note).1
  | Op.delete noteId => (deleteNote notesData noteId).1

/-- The value of `notesData` after a sequence of requests, first request first. -/
def run (notesData : List Note) (ops : List Op) : List Note :=
  ops.foldl step notesData

/-- The clock values `Date.now()` read by the creating saves of a sequence of requests:
the saves of a note whose id is falsy. -/
def createTimes : List Op → List Nat
  | [] => []
  | Op.save clk note :: ops =>
    if truthy note.id then createTimes ops else clk.now :: createTimes ops
  | Op.delete _ :: ops => createTimes ops

/-- The ids of a collection, in order. -/
def ids (notesData : List Note) : List (Option String) :=
  notesData.map (·.id)

/-! ## Auxiliary facts about the built-in functions -/

/-- The number denoted by a list of decimal digit characters, continuing from `acc`. -/
def digitsValue (cs : List Char) (acc : Nat) : Nat :=
  cs.foldl (fun a c => a * 10 + (c.toNat - 48)) acc

theorem digitChar_value (k : Nat) (hk : k < 10) : (Nat.digitChar k).toNat - 48 = k := by
  interval_cases k <;> rfl

theorem digitsValue_toDigitsCore (fuel : Nat) :
    ∀ (n : Nat) (ds : List Char), n < fuel →
      digitsValue (Nat.toDigitsCore 10 fuel n ds) 0 = digitsValue ds n := by
  induction fuel with
  | zero => intro n ds h; omega
  | succ fuel ih =>
    intro n ds h
    unfold Nat.toDigitsCore
    by_cases h0 : n / 10 = 0
    · simp only [h0, if_true]
      have hn : n % 10 = n := by omega
      have hd := digitChar_value n (by omega)
      simp [digitsValue, hn, hd]
    · simp only [h0, if_false]
      rw [ih (n / 10) _ (by omega)]
      simp only [digitsValue, List.foldl_cons]
      rw [digitChar_value (n % 10) (Nat.mod_lt _ (by decide))]
      congr 1
      omega

/-- The decimal representation of a natural number determines the number: two clock
values with the same representation are equal. -/
theorem toString_nat_injective {a b : Nat} (h : toString a = toString b) : a = b := by
  have h1 : Nat.toDigits 10 a = Nat.toDigits 10 b := by
    have h2 : (Nat.toDigits 10 a).asString = (Nat.toDigits 10 b).asString := h
    exact congrArg String.data h2
  have ha := digitsValue_toDigitsCore (a + 1) a [] (Nat.lt_succ_self a)
  have hb := digitsValue_toDigitsCore (b + 1) b [] (Nat.lt_succ_self b)
  simp only [Nat.toDigits] at h1
  rw [h1, hb] at ha
  simpa [digitsValue] using ha.symm

theorem findIndex_none {p : Note → Bool} :
    ∀ {l : List Note}, (∀ m ∈ l, p m = false) → findIndex p l = none
  | [], _ => rfl
  | x :: xs, h => by
    have hx : p x = false := h x (List.mem_cons_self x xs)
    have hxs : findIndex p xs = none :=
      findIndex_none (fun m hm => h m (List.mem_cons_of_mem x hm))
    simp [findIndex, hx, hxs]

theorem findIndex_some {p : Note → Bool} :
    ∀ {l : List Note}, (∃ m ∈ l, p m = true) →
      ∃ i old, findIndex p l = some i ∧ l[i]? = some old ∧ p old = true ∧
        ∀ j, j < i → ∀ m, l[j]? = some m → p m = false
  | [], h => by obtain ⟨m, hm, _⟩ := h; cases hm
  | x :: xs, h => by
    by_cases hx : p x = true
    · refine ⟨0, x, by simp [findIndex, hx], by simp, hx, ?_⟩
      intro j hj; omega
    · have hx0 : p x = false := by simpa using hx
      have hex : ∃ m ∈ xs, p m = true := by
        obtain ⟨m, hm, hpm⟩ := h
        rcases List.mem_cons.mp hm with rfl | hm1
        · exact absurd hpm hx
        · exact ⟨m, hm1, hpm⟩
      obtain ⟨i, old, hi, hold, hp, hlt⟩ := findIndex_some hex
      refine ⟨i + 1, old, by simp [findIndex, hx0, hi], by simpa using hold, hp, ?_⟩
      intro j hj m hm
      cases j with
      | zero =>
        have : m = x := by simpa using hm.symm
        rw [this]; exact hx0
      | succ j => exact hlt j (by omega) m (by simpa using hm)

theorem includesChars_iff (needle : List Char) :
    ∀ hay : List Char, includesChars hay needle = true ↔ needle <:+: hay
  | [] => by
    cases needle <;> simp [includesChars, List.isPrefixOf]
  | c :: cs => by
    unfold includesChars
    rw [Bool.or_eq_true, includesChars_iff needle cs, List.isPrefixOf_iff_prefix,
      List.infix_cons_iff]

theorem trim_of_whiteSpace (s : String) (h : ∀ ch ∈ s.data, isWhiteSpace ch = true) :
    (trim s).isEmpty = true := by
  have h1 : s.data.dropWhile isWhiteSpace = [] := by
    rw [List.dropWhile_eq_nil_iff]; exact h
  simp [trim, h1, String.isEmpty, String.endPos, String.utf8ByteSize,
    String.utf8ByteSize.go]

theorem ids_set_of_id_eq (l : List Note) (i : Nat) (old note : Note)
    (hold : l[i]? = some old) (hid : note.id = old.id) :
    ids (l.set i note) = ids l := by
  unfold ids
  rw [List.map_set]
  apply List.ext_getElem?
  intro j
  by_cases hj : i = j
  · subst hj
    have hlt : i < l.length := by
      rcases Nat.lt_or_ge i l.length with h | h
      · exact h
      · rw [List.getElem?_eq_none h] at hold; cases hold
    rw [List.getElem?_eq_getElem hlt] at hold
    injection hold with hold
    simp [hlt, hold, hid]
  · rw [List.getElem?_set_ne hj]

/-! ## Auxiliary facts about the handlers -/

theorem saveNoteData_create (clk : SaveClock) (col : List Note) (n : Note)
    (hid : truthy n.id = false) :
    saveNoteData clk col n =
      { n with
        id := some (toString clk.now)
        createdAt := clk.isoCreated
        updatedAt := clk.isoUpdated } :: col := by
  simp [saveNoteData, hid]

theorem filter_id_of_fresh (col : List Note) (i : Option String) (h : i ∉ ids col) :
    col.filter (fun m => m.id == i) = [] := by
  rw [List.filter_eq_nil_iff]
  intro m hm hmi
  apply h
  have : m.id = i := by simpa using hmi
  rw [← this]
  exact List.mem_map_of_mem _ hm

theorem filter_ne_of_fresh (col : List Note) (i : Option String) (h : i ∉ ids col) :
    col.filter (fun m => m.id != i) = col := by
  rw [List.filter_eq_self]
  intro m hm
  have hne : m.id ≠ i := by
    intro he
    apply h
    rw [← he]
    exact List.mem_map_of_mem _ hm
  simpa using hne

theorem filter_ne_eq_eraseIdx :
    ∀ (l : List Note) (noteId : Option String) (i : Nat), (ids l).Nodup →
      (ids l)[i]? = some noteId → l.filter (fun m => m.id != noteId) = l.eraseIdx i
  | [], _, i, _, h => by simp [ids] at h
  | x :: xs, noteId, 0, hnd, h => by
    have hx : x.id = noteId := by simpa [ids] using h
    have hnot : noteId ∉ ids xs := by
      rw [← hx]
      exact (List.nodup_cons.mp (by simpa [ids] using hnd)).1
    have hxs := filter_ne_of_fresh xs noteId hnot
    simp [List.filter_cons, hx, hxs]
  | x :: xs, noteId, i + 1, hnd, h => by
    have hnd1 := List.nodup_cons.mp (show (x.id :: ids xs).Nodup by simpa [ids] using hnd)
    have hi : (ids xs)[i]? = some noteId := by simpa [ids] using h
    have hmem : noteId ∈ ids xs := List.getElem?_mem hi
    have hx : x.id ≠ noteId := by
      intro he
      exact hnd1.1 (he ▸ hmem)
    have ih := filter_ne_eq_eraseIdx xs noteId i hnd1.2 hi
    simp [List.filter_cons, hx, ih]

/-! ## The claims -/

/-- C1, counterexample. The collection holds one note whose id is `"5"`; a draft is
saved when `Date.now()` reads 5. The id assigned is `"5"`, which the stored note already
has, and the new collection holds two notes with that id. -/
theorem save_new_note_id_collision :
    ids (saveNote ⟨5, "t1", "t1"⟩ [⟨some "5", "A", "x", "t0", "t0"⟩]
      ⟨none, "B", "y", "t1", "t1"⟩).1 = [some "5", some "5"] ∧
    some "5" ∈ ids [(⟨some "5", "A", "x", "t0", "t0"⟩ : Note)] ∧
    ((saveNote ⟨5, "t1", "t1"⟩ [⟨some "5", "A", "x", "t0", "t0"⟩]
      ⟨none, "B", "y", "t1", "t1"⟩).2.filter (fun m => m.id == some "5")).length = 2 := by
  decide

/-- C1, amended. Let `n` be a note whose id is unset (falsy) and let the decimal text of
the clock value `Date.now()` read by the save be the id of no note of the collection.
Then `save(n)` assigns that text as id; the collection after the save, the reply and the
reply of a following `list()` are the new note followed by the old collection in its
order; the new note has the title and the content of `n`; it is the only note with its
id. When the save is issued by the save action of the window on a draft that passes the
guard, the title stored is the title field, or `"Untitled Note"` when the title field is
the empty string, and the content stored is the content field. -/
theorem save_new_note (clk : SaveClock) (col : List Note) (n : Note)
    (hid : truthy n.id = false) (hfresh : some (toString clk.now) ∉ ids col) :
    (∃ newNote : Note,
      saveNote clk col n = (newNote :: col, newNote :: col) ∧
      (getNotes (saveNote clk col n).1).2 = newNote :: col ∧
      newNote.id = some (toString clk.now) ∧
      newNote.id ∉ ids col ∧
      newNote.title = n.title ∧
      newNote.content = n.content ∧
      (newNote :: col).filter (fun m => m.id == newNote.id) = [newNote]) ∧
    (∀ (dclk : DraftClock) (r : Renderer) (cur : Note),
      r.currentNote = some cur → truthy cur.id = false →
      ((trim cur.title).isEmpty && (trim cur.content).isEmpty) = false →
      ∃ newNote : Note,
        (saveCurrentNote clk dclk r col).notesData = newNote :: col ∧
        (saveCurrentNote clk dclk r col).renderer.notes = newNote :: col ∧
        newNote.id = some (toString clk.now) ∧
        newNote.title = (if r.noteTitle = "" then "Untitled Note" else r.noteTitle) ∧
        newNote.content = r.noteContent ∧
        (newNote :: col).filter (fun m => m.id == newNote.id) = [newNote]) := by
  have hfil := filter_id_of_fresh col _ hfresh
  constructor
  · refine ⟨{ n with
        id := some (toString clk.now)
        createdAt := clk.isoCreated
        updatedAt := clk.isoUpdated }, ?_, ?_, rfl, hfresh, rfl, rfl, ?_⟩
    · simp only [saveNote, saveNoteData_create clk col n hid]
    · simp only [getNotes, saveNote, saveNoteData_create clk col n hid]
    · simp [List.filter_cons, hfil]
  · intro dclk r cur hcur hcid hguard
    have hsent : truthy
        ({ cur with
            title := if r.noteTitle = "" then "Untitled Note" else r.noteTitle
            content := r.noteContent } : Note).id = false := hcid
    refine ⟨{ id := some (toString clk.now)
              title := if r.noteTitle = "" then "Untitled Note" else r.noteTitle
              content := r.noteContent
              createdAt := clk.isoCreated
              updatedAt := clk.isoUpdated }, ?_, ?_, rfl, rfl, rfl, ?_⟩
    · simp only [saveCurrentNote, hcur, hguard, saveNote,
        saveNoteData_create clk col _ hsent]
      rfl
    · simp only [saveCurrentNote, hcur, hguard, saveNote,
        saveNoteData_create clk col _ hsent]
      rfl
    · simp [List.filter_cons, hfil]

/-- C1, witness: a draft titled `"B"` saved at clock value 6 into a collection whose only
id is `"5"`. -/
theorem save_new_note_witness :
    truthy (⟨none, "B", "y", "t1", "t1"⟩ : Note).id = false ∧
    some (toString (6 : Nat)) ∉ ids [(⟨some "5", "A", "x", "t0", "t0"⟩ : Note)] ∧
    ∃ newNote : Note,
      saveNote ⟨6, "t1", "t1"⟩ [⟨some "5", "A", "x", "t0", "t0"⟩]
        ⟨none, "B", "y", "t1", "t1"⟩ =
        (newNote :: [⟨some "5", "A", "x", "t0", "t0"⟩],
          newNote :: [⟨some "5", "A", "x", "t0", "t0"⟩]) ∧
      newNote.id = some (toString (6 : Nat)) :=
  ⟨by decide, by decide,
    (save_new_note ⟨6, "t1", "t1"⟩ [⟨some "5", "A", "x", "t0", "t0"⟩]
      ⟨none, "B", "y", "t1", "t1"⟩ (by decide) (by decide)).1.imp
      (fun _ h => ⟨h.1, h.2.2.1⟩)⟩

/-- C2, counterexample. The stored note with id `"1"` was created at `"t0"`; the note sent
with the same id carries the creation time `"t9"`. After the save the entry has the
creation time `"t9"`: the one sent, not the one stored. -/
theorem save_existing_note_createdAt_replaced :
    ((saveNote ⟨5, "t5", "t5"⟩ [⟨some "1", "A", "x", "t0", "t0"⟩]
      ⟨some "1", "A2", "x2", "t9", "t9"⟩).1.map (·.createdAt)) = ["t9"] ∧
    ([(⟨some "1", "A", "x", "t0", "t0"⟩ : Note)].map (·.createdAt)) = ["t0"] := by
  decide

/-- C2, amended. Let `n` be a note whose id is set (truthy) and equals the id of an entry
of the collection, and let `i` be the position of the first such entry. Then `save(n)`
replaces the entry at `i` in place: the entry at `i` afterwards has the id, the title, the
content and the `createdAt` of `n` (the creation time sent by the caller, which is the
stored one whenever the caller sends the stored one back) and `updatedAt` set to the
current time; every other entry is unchanged; the length is unchanged; the reply is the
new collection. -/
theorem save_existing_note (clk : SaveClock) (col : List Note) (n : Note)
    (hid : truthy n.id = true) (hex : ∃ m ∈ col, m.id = n.id) :
    ∃ (i : Nat) (old : Note),
      col[i]? = some old ∧ old.id = n.id ∧
      (∀ j, j < i → ∀ m, col[j]? = some m → m.id ≠ n.id) ∧
      (saveNote clk col n).1 = col.set i { n with updatedAt := clk.isoUpdated } ∧
      (saveNote clk col n).2 = (saveNote clk col n).1 ∧
      (saveNote clk col n).1.length = col.length ∧
      (saveNote clk col n).1[i]? = some
        { id := n.id, title := n.title, content := n.content,
          createdAt := n.createdAt, updatedAt := clk.isoUpdated } ∧
      (∀ j, j ≠ i → (saveNote clk col n).1[j]? = col[j]?) ∧
      (n.createdAt = old.createdAt →
        ((saveNote clk col n).1[i]?).map (·.createdAt) = some old.createdAt) := by
  have hex1 : ∃ m ∈ col, (fun k : Note => k.id == n.id) m = true := by
    obtain ⟨m, hm, hmid⟩ := hex
    exact ⟨m, hm, by simp [hmid]⟩
  obtain ⟨i, old, hfind, hold, hp, hbefore⟩ := findIndex_some hex1
  have hlt : i < col.length := by
    rcases Nat.lt_or_ge i col.length with h | h
    · exact h
    · rw [List.getElem?_eq_none h] at hold; cases hold
  have hsave : (saveNote clk col n).1 = col.set i { n with updatedAt := clk.isoUpdated } := by
    simp [saveNote, saveNoteData, hid, hfind]
  have hentry : (saveNote clk col n).1[i]? = some
      { id := n.id, title := n.title, content := n.content,
        createdAt := n.createdAt, updatedAt := clk.isoUpdated } := by
    rw [hsave]
    simp [hlt]
  refine ⟨i, old, hold, by simpa using hp, ?_, hsave, rfl, ?_, hentry, ?_, ?_⟩
  · intro j hj m hm
    simpa using hbefore j hj m hm
  · rw [hsave, List.length_set]
  · intro j hj
    rw [hsave, List.getElem?_set_ne (Ne.symm hj)]
  · intro hcreated
    rw [hentry]
    simp [hcreated]

/-- C2, witness: the second of two notes is saved again with a new title. -/
theorem save_existing_note_witness :
    truthy (⟨some "1", "A2", "x2", "t0", "t0"⟩ : Note).id = true ∧
    (∃ m ∈ [(⟨some "2", "B", "y", "t3", "t3"⟩ : Note), ⟨some "1", "A", "x", "t0", "t0"⟩],
      m.id = (⟨some "1", "A2", "x2", "t0", "t0"⟩ : Note).id) ∧
    ∃ (i : Nat) (old : Note),
      [(⟨some "2", "B", "y", "t3", "t3"⟩ : Note), ⟨some "1", "A", "x", "t0", "t0"⟩][i]? =
        some old ∧
      (saveNote ⟨5, "t5", "t5"⟩
        [⟨some "2", "B", "y", "t3", "t3"⟩, ⟨some "1", "A", "x", "t0", "t0"⟩]
        ⟨some "1", "A2", "x2", "t0", "t0"⟩).1.length = 2 :=
  ⟨by decide, ⟨⟨some "1", "A", "x", "t0", "t0"⟩, by decide, rfl⟩,
    (save_existing_note ⟨5, "t5", "t5"⟩
      [⟨some "2", "B", "y", "t3", "t3"⟩, ⟨some "1", "A", "x", "t0", "t0"⟩]
      ⟨some "1", "A2", "x2", "t0", "t0"⟩ (by decide)
      ⟨⟨some "1", "A", "x", "t0", "t0"⟩, by decide, rfl⟩).imp
      (fun _ h => h.imp (fun _ h1 => ⟨h1.1, h1.2.2.2.2.2.1⟩))⟩

/-- C3, counterexample. Two notes of the collection have the id `"5"`; `delete("5")`
removes both, so the length drops from 2 to 0. -/
theorem delete_note_removes_two :
    (deleteNote [⟨some "5", "A", "x", "t0", "t0"⟩, ⟨some "5", "B", "y", "t1", "t1"⟩]
      (some "5")).1 = [] ∧
    [(⟨some "5", "A", "x", "t0", "t0"⟩ : Note), ⟨some "5", "B", "y", "t1", "t1"⟩].length = 2 := by
  decide

/-- C3, amended. On every collection and for every id, `delete(id)` keeps exactly the
entries whose id differs from that id, in their original order, so every entry carrying
the id is removed; it returns the collection unchanged if no entry carries the id; the
length drops by the number of entries carrying the id; the reply is the new collection.
When the ids of the collection are pairwise distinct, exactly the one entry with that id
is removed if one is present, and the length of the result is the length of the
collection, or that length minus 1. -/
theorem delete_note (col : List Note) (noteId : Option String) :
    (deleteNote col noteId).2 = (deleteNote col noteId).1 ∧
    (deleteNote col noteId).1 = col.filter (fun m => decide (m.id ≠ noteId)) ∧
    (deleteNote col noteId).1.Sublist col ∧
    (∀ m, m ∈ (deleteNote col noteId).1 ↔ m ∈ col ∧ m.id ≠ noteId) ∧
    (noteId ∉ ids col → (deleteNote col noteId).1 = col) ∧
    (deleteNote col noteId).1.length +
      (col.filter (fun m => decide (m.id = noteId))).length = col.length ∧
    ((ids col).Nodup →
      (∀ i, (ids col)[i]? = some noteId → (deleteNote col noteId).1 = col.eraseIdx i) ∧
      ((deleteNote col noteId).1.length = col.length ∨
        (deleteNote col noteId).1.length = col.length - 1)) := by
  have hfilter : (deleteNote col noteId).1 = col.filter (fun m => decide (m.id ≠ noteId)) := by
    show col.filter (fun m => m.id != noteId) = _
    apply List.filter_congr
    intro m _
    rw [Bool.eq_iff_iff]
    simp
  refine ⟨rfl, hfilter, List.filter_sublist col, ?_, ?_, ?_, ?_⟩
  · intro m
    simp [deleteNote, List.mem_filter]
  · intro h
    exact filter_ne_of_fresh col noteId h
  · have hlen := @List.length_eq_length_filter_add _ col (fun m => decide (m.id = noteId))
    have hrest : col.filter (fun m => !decide (m.id = noteId)) =
        col.filter (fun m => decide (m.id ≠ noteId)) := by
      apply List.filter_congr
      intro m _
      rw [Bool.eq_iff_iff]
      simp
    rw [hrest] at hlen
    rw [hfilter]
    omega
  · intro hnd
    constructor
    · intro i hi
      exact filter_ne_eq_eraseIdx col noteId i hnd hi
    · by_cases h : noteId ∈ ids col
      · obtain ⟨i, hi⟩ := List.getElem?_of_mem h
        right
        show (col.filter (fun m => m.id != noteId)).length = col.length - 1
        rw [filter_ne_eq_eraseIdx col noteId i hnd hi, List.length_eraseIdx]
        have hlt : i < col.length := by
          rcases Nat.lt_or_ge i (ids col).length with h1 | h1
          · simpa [ids] using h1
          · rw [List.getElem?_eq_none h1] at hi; cases hi
        simp [hlt]
      · left
        show (col.filter (fun m => m.id != noteId)).length = col.length
        rw [filter_ne_of_fresh col noteId h]

/-- C3, witness: the first of two notes with distinct ids is deleted, and `"5"` is
deleted from a collection in which two notes carry it. -/
theorem delete_note_witness :
    (ids [(⟨some "2", "B", "y", "t3", "t3"⟩ : Note), ⟨some "1", "A", "x", "t0", "t0"⟩]).Nodup ∧
    ((deleteNote [⟨some "2", "B", "y", "t3", "t3"⟩, ⟨some "1", "A", "x", "t0", "t0"⟩]
      (some "2")).1.length = 2 ∨
    (deleteNote [⟨some "2", "B", "y", "t3", "t3"⟩, ⟨some "1", "A", "x", "t0", "t0"⟩]
      (some "2")).1.length = 2 - 1) ∧
    (deleteNote [⟨some "5", "A", "x", "t0", "t0"⟩, ⟨some "5", "B", "y", "t1", "t1"⟩,
      ⟨some "1", "C", "z", "t2", "t2"⟩] (some "5")).1 =
      [(⟨some "5", "A", "x", "t0", "t0"⟩ : Note), ⟨some "5", "B", "y", "t1", "t1"⟩,
        ⟨some "1", "C", "z", "t2", "t2"⟩].filter (fun m => decide (m.id ≠ some "5")) :=
  ⟨by decide,
    ((delete_note [⟨some "2", "B", "y", "t3", "t3"⟩, ⟨some "1", "A", "x", "t0", "t0"⟩]
      (some "2")).2.2.2.2.2.2 (by decide)).2,
    (delete_note [⟨some "5", "A", "x", "t0", "t0"⟩, ⟨some "5", "B", "y", "t1", "t1"⟩,
      ⟨some "1", "C", "z", "t2", "t2"⟩] (some "5")).2.1⟩

/-- C4. For a non-empty query `q`, `search(q)` replies with exactly the notes of the
collection, in the order of the collection, whose lower-cased title or lower-cased content
contains the lower-cased query as a contiguous block of characters: the reply is the
collection filtered by that condition, a note is in the reply if and only if it is in the
collection and satisfies the condition, and `notesData` is left as it was. It holds for
every lower-casing function. -/
theorem search_notes (toLowerCase : String → String) (col : List Note) (q : String)
    (hq : q ≠ "") :
    (searchNotes toLowerCase col (some q)).1 = col ∧
    (searchNotes toLowerCase col (some q)).2.Sublist col ∧
    (searchNotes toLowerCase col (some q)).2 = col.filter (fun n => decide
      ((toLowerCase q).data <:+: (toLowerCase n.title).data ∨
        (toLowerCase q).data <:+: (toLowerCase n.content).data)) ∧
    (∀ n, n ∈ (searchNotes toLowerCase col (some q)).2 ↔
      n ∈ col ∧ ((toLowerCase q).data <:+: (toLowerCase n.title).data ∨
        (toLowerCase q).data <:+: (toLowerCase n.content).data)) := by
  have hres : (searchNotes toLowerCase col (some q)).2 = col.filter (fun n => decide
      ((toLowerCase q).data <:+: (toLowerCase n.title).data ∨
        (toLowerCase q).data <:+: (toLowerCase n.content).data)) := by
    have htr : truthy (some q) = true := by simp [truthy, hq]
    simp only [searchNotes, htr, Bool.not_true, Bool.false_eq_true, if_false,
      Option.getD_some]
    apply List.filter_congr
    intro n _
    rw [Bool.eq_iff_iff]
    simp [includes, includesChars_iff]
  refine ⟨?_, ?_, hres, ?_⟩
  · simp [searchNotes, truthy, hq]
  · rw [hres]; exact List.filter_sublist col
  · intro n
    rw [hres, List.mem_filter]
    simp

/-- C4, witness: the query `"AB"` under ASCII lower-casing finds the note titled
`"cabin"` and not the note titled `"dog"`. -/
theorem search_notes_witness :
    ("AB" : String) ≠ "" ∧
    (searchNotes String.toLower
      [⟨some "2", "dog", "y", "t3", "t3"⟩, ⟨some "1", "cabin", "x", "t0", "t0"⟩]
      (some "AB")).1 =
      [⟨some "2", "dog", "y", "t3", "t3"⟩, ⟨some "1", "cabin", "x", "t0", "t0"⟩] :=
  ⟨by decide,
    (search_notes String.toLower
      [⟨some "2", "dog", "y", "t3", "t3"⟩, ⟨some "1", "cabin", "x", "t0", "t0"⟩]
      "AB" (by decide)).1⟩

/-- C5. For every collection, `search("")` and `search(null)` reply with the same sequence
as `list()`: the collection itself, in its current order. -/
theorem search_empty_query (toLowerCase : String → String) (col : List Note) :
    (searchNotes toLowerCase col (some "")).2 = (getNotes col).2 ∧
    (searchNotes toLowerCase col none).2 = (getNotes col).2 ∧
    (getNotes col).2 = col := by
  simp [searchNotes, truthy, getNotes]

/-- C6, counterexample. From the empty collection, two drafts are saved while
`Date.now()` reads 5 both times: the two notes of the collection have the id `"5"`. -/
theorem run_duplicate_ids :
    ids (run [] [Op.save ⟨5, "t1", "t1"⟩ ⟨none, "A", "x", "t1", "t1"⟩,
      Op.save ⟨5, "t1", "t1"⟩ ⟨none, "B", "y", "t1", "t1"⟩]) = [some "5", some "5"] ∧
    ¬ (ids (run [] [Op.save ⟨5, "t1", "t1"⟩ ⟨none, "A", "x", "t1", "t1"⟩,
      Op.save ⟨5, "t1", "t1"⟩ ⟨none, "B", "y", "t1", "t1"⟩])).Nodup := by
  decide

theorem ids_saveNoteData_update (clk : SaveClock) (col : List Note) (n : Note)
    (hid : truthy n.id = true) : ids (saveNoteData clk col n) = ids col := by
  by_cases hex : ∃ m ∈ col, (fun k : Note => k.id == n.id) m = true
  · obtain ⟨i, old, hfind, hold, hp, _⟩ := findIndex_some hex
    have hpid : old.id = n.id := by simpa using hp
    simp only [saveNoteData, hid, if_true, hfind]
    exact ids_set_of_id_eq col i old _ hold hpid.symm
  · have hnone : findIndex (fun k : Note => k.id == n.id) col = none := by
      apply findIndex_none
      intro m hm
      by_contra hpm
      exact hex ⟨m, hm, by simpa using hpm⟩
    simp [saveNoteData, hid, hnone]

theorem run_ids_nodup_of :
    ∀ (ops : List Op) (col : List Note), (ids col).Nodup → (createTimes ops).Nodup →
      (∀ i ∈ ids col, ∃ t : Nat, i = some (toString t) ∧ t ∉ createTimes ops) →
      (ids (run col ops)).Nodup
  | [], col, hnd, _, _ => by simpa [run] using hnd
  | Op.delete noteId :: ops, col, hnd, hct, hinv => by
    have hsub : (ids (deleteNote col noteId).1).Sublist (ids col) :=
      (List.filter_sublist col).map _
    have hrun : run col (Op.delete noteId :: ops) = run (deleteNote col noteId).1 ops := rfl
    rw [hrun]
    apply run_ids_nodup_of ops _ (hnd.sublist hsub) (by simpa [createTimes] using hct)
    intro i hi
    obtain ⟨t, ht, htn⟩ := hinv i (hsub.subset hi)
    exact ⟨t, ht, by simpa [createTimes] using htn⟩
  | Op.save clk n :: ops, col, hnd, hct, hinv => by
    have hrun : run col (Op.save clk n :: ops) = run (saveNoteData clk col n) ops := rfl
    rw [hrun]
    by_cases hid : truthy n.id = true
    · have hids := ids_saveNoteData_update clk col n hid
      have hct1 : createTimes (Op.save clk n :: ops) = createTimes ops := by
        simp [createTimes, hid]
      rw [hct1] at hct hinv
      apply run_ids_nodup_of ops _ (by rw [hids]; exact hnd) hct
      rw [hids]; exact hinv
    · have hid0 : truthy n.id = false := by simpa using hid
      have hct1 : createTimes (Op.save clk n :: ops) = clk.now :: createTimes ops := by
        simp [createTimes, hid0]
      rw [hct1] at hct hinv
      have hct2 := List.nodup_cons.mp hct
      have hfresh : some (toString clk.now) ∉ ids col := by
        intro hmem
        obtain ⟨t, ht, htn⟩ := hinv _ hmem
        have hts : toString clk.now = toString t := by injection ht
        have : clk.now = t := toString_nat_injective hts
        exact htn (by rw [this]; exact List.mem_cons_self _ _)
      have hids : ids (saveNoteData clk col n) = some (toString clk.now) :: ids col := by
        rw [saveNoteData_create clk col n hid0]; rfl
      apply run_ids_nodup_of ops _ (by rw [hids]; exact List.nodup_cons.mpr ⟨hfresh, hnd⟩)
        hct2.2
      intro i hi
      rw [hids] at hi
      rcases List.mem_cons.mp hi with rfl | hi1
      · exact ⟨clk.now, rfl, hct2.1⟩
      · obtain ⟨t, ht, htn⟩ := hinv i hi1
        exact ⟨t, ht, fun h => htn (List.mem_cons_of_mem _ h)⟩

/-- C6, amended. Start from the empty collection and run any finite sequence of save
(create or update) and delete requests in which the creating saves read pairwise
distinct values of `Date.now()`. Then no two notes of the collection have the same id. -/
theorem run_ids_nodup (ops : List Op) (hclock : (createTimes ops).Nodup) :
    (ids (run [] ops)).Nodup :=
  run_ids_nodup_of ops [] List.nodup_nil hclock (fun _ h => by cases h)

/-- C6, witness: two drafts saved at clock values 5 and 6, then the first deleted. -/
theorem run_ids_nodup_witness :
    (createTimes [Op.save ⟨5, "t1", "t1"⟩ ⟨none, "A", "x", "t1", "t1"⟩,
      Op.save ⟨6, "t2", "t2"⟩ ⟨none, "B", "y", "t2", "t2"⟩, Op.delete (some "5")]).Nodup ∧
    (ids (run [] [Op.save ⟨5, "t1", "t1"⟩ ⟨none, "A", "x", "t1", "t1"⟩,
      Op.save ⟨6, "t2", "t2"⟩ ⟨none, "B", "y", "t2", "t2"⟩, Op.delete (some "5")])).Nodup :=
  ⟨by decide,
    run_ids_nodup [Op.save ⟨5, "t1", "t1"⟩ ⟨none, "A", "x", "t1", "t1"⟩,
      Op.save ⟨6, "t2", "t2"⟩ ⟨none, "B", "y", "t2", "t2"⟩, Op.delete (some "5")]
      (by decide)⟩

/-- C7. Let `n` be a note whose id is set (truthy) and is the id of no entry of the
collection. Then `save(n)` is a successful no-op: `notesData` after the request is the
collection as it was, the reply is that unchanged collection, and so is the reply of a
following `list()`. -/
theorem save_unknown_id (clk : SaveClock) (col : List Note) (n : Note)
    (hid : truthy n.id = true) (hno : ∀ m ∈ col, m.id ≠ n.id) :
    saveNote clk col n = (col, col) ∧ (getNotes (saveNote clk col n).1).2 = col := by
  have hnone : findIndex (fun k : Note => k.id == n.id) col = none := by
    apply findIndex_none
    intro m hm
    simpa using hno m hm
  simp [saveNote, saveNoteData, hid, hnone, getNotes]

/-- C7, witness: a note with id `"9"` is saved into a collection whose only id is `"1"`. -/
theorem save_unknown_id_witness :
    truthy (⟨some "9", "Z", "z", "t0", "t0"⟩ : Note).id = true ∧
    (∀ m ∈ [(⟨some "1", "A", "x", "t0", "t0"⟩ : Note)],
      m.id ≠ (⟨some "9", "Z", "z", "t0", "t0"⟩ : Note).id) ∧
    saveNote ⟨5, "t5", "t5"⟩ [⟨some "1", "A", "x", "t0", "t0"⟩]
      ⟨some "9", "Z", "z", "t0", "t0"⟩ =
      ([⟨some "1", "A", "x", "t0", "t0"⟩], [⟨some "1", "A", "x", "t0", "t0"⟩]) :=
  ⟨by decide, by decide,
    (save_unknown_id ⟨5, "t5", "t5"⟩ [⟨some "1", "A", "x", "t0", "t0"⟩]
      ⟨some "9", "Z", "z", "t0", "t0"⟩ (by decide) (by decide)).1⟩

/-- C8. When reading the backing file fails, or its content fails to parse as JSON,
`loadNotesData` returns normally and leaves the empty array in `notesData`, so a following
`list()` replies with the empty collection. It holds for every parser. -/
theorem load_failure_gives_empty (parse : String → Option JsonValue)
    (file : Option String)
    (hfail : file = none ∨ ∃ data, file = some data ∧ parse data = none) :
    loadNotesData parse file = JsonValue.arr [] ∧
    (getNotes (loadNotesData parse file)).2 = JsonValue.arr [] := by
  rcases hfail with h | ⟨data, h, hp⟩
  · subst h; exact ⟨rfl, rfl⟩
  · subst h; simp [loadNotesData, hp, getNotes]

/-- C8, witness: a file whose content is the text `oops`, which is not one of the texts
accepted by the sample parser. -/
theorem load_failure_gives_empty_witness :
    ((some "oops" : Option String) = none ∨
      ∃ data, (some "oops" : Option String) = some data ∧ parseSample data = none) ∧
    loadNotesData parseSample (some "oops") = JsonValue.arr [] :=
  ⟨Or.inr ⟨"oops", rfl, rfl⟩,
    (load_failure_gives_empty parseSample (some "oops") (Or.inr ⟨"oops", rfl, rfl⟩)).1⟩

/-- C9, counterexample. The backing file holds the text of an empty JSON object, a value
that is not an array. Loading leaves that object in `notesData`, not the empty array;
the same happens for the number `7` and the string `"x"`. -/
theorem load_keeps_any_shape :
    loadNotesData parseSample (some "\x7b\x7d") = JsonValue.obj [] ∧
    loadNotesData parseSample (some "\x7b\x7d") ≠ JsonValue.arr [] ∧
    loadNotesData parseSample (some "7") ≠ JsonValue.arr [] ∧
    loadNotesData parseSample (some "\"x\"") ≠ JsonValue.arr [] := by
  refine ⟨rfl, ?_, ?_, ?_⟩ <;> simp [loadNotesData, parseSample]

/-- C9, amended. When the content of the backing file is well-formed JSON, loading leaves
the parsed value in `notesData` whatever its shape, and a following `list()` replies with
it; the shape is not checked. The starting collection is empty only when the parsed value
is the empty array. -/
theorem load_parsed_value (parse : String → Option JsonValue) (data : String)
    (value : JsonValue) (hparse : parse data = some value) :
    loadNotesData parse (some data) = value ∧
    (getNotes (loadNotesData parse (some data))).2 = value ∧
    (loadNotesData parse (some data) = JsonValue.arr [] ↔ value = JsonValue.arr []) := by
  have h : loadNotesData parse (some data) = value := by simp [loadNotesData, hparse]
  exact ⟨h, by simp [getNotes, h], by rw [h]⟩

/-- C9, witness: a file holding the number `7`. -/
theorem load_parsed_value_witness :
    parseSample "7" = some (JsonValue.num 7) ∧
    loadNotesData parseSample (some "7") = JsonValue.num 7 :=
  ⟨rfl, (load_parsed_value parseSample "7" (JsonValue.num 7) rfl).1⟩

/-- C10. When the current note has a title and a content that are both empty or made of
white space only, the save action is refused: no note is passed to the store, `notesData`
is as it was, and the note list and the current note of the window are unchanged; the
status bar reports the refusal. -/
theorem save_refused_when_blank (sclk : SaveClock) (dclk : DraftClock) (r : Renderer)
    (col : List Note) (cur : Note) (hcur : r.currentNote = some cur)
    (htitle : ∀ ch ∈ cur.title.data, isWhiteSpace ch = true)
    (hcontent : ∀ ch ∈ cur.content.data, isWhiteSpace ch = true) :
    (saveCurrentNote sclk dclk r col).saveCalls = [] ∧
    (saveCurrentNote sclk dclk r col).notesData = col ∧
    (saveCurrentNote sclk dclk r col).renderer.notes = r.notes ∧
    (saveCurrentNote sclk dclk r col).renderer.currentNote = r.currentNote ∧
    (saveCurrentNote sclk dclk r col).renderer.statusText = "Cannot save empty note" := by
  have h1 := trim_of_whiteSpace cur.title htitle
  have h2 := trim_of_whiteSpace cur.content hcontent
  simp [saveCurrentNote, hcur, h1, h2]

/-- C10, witness: a draft whose title is two spaces and whose content is a tab and a line
feed, in a window whose input elements hold other text. -/
theorem save_refused_when_blank_witness :
    (∀ ch ∈ ("  " : String).data, isWhiteSpace ch = true) ∧
    (∀ ch ∈ ("\t\n" : String).data, isWhiteSpace ch = true) ∧
    (saveCurrentNote ⟨5, "t5", "t5"⟩ ⟨"t6", "t6"⟩
      ⟨[], some ⟨none, "  ", "\t\n", "t0", "t0"⟩, "T", "C", true, "Modified"⟩
      [⟨some "1", "A", "x", "t0", "t0"⟩]).saveCalls = [] :=
  ⟨by decide, by decide,
    (save_refused_when_blank ⟨5, "t5", "t5"⟩ ⟨"t6", "t6"⟩
      ⟨[], some ⟨none, "  ", "\t\n", "t0", "t0"⟩, "T", "C", true, "Modified"⟩
      [⟨some "1", "A", "x", "t0", "t0"⟩] ⟨none, "  ", "\t\n", "t0", "t0"⟩ rfl
      (by decide) (by decide)).1⟩

end RefinedNote
